import Mathlib

/-!
Verification of the text-classification core of the wrapper-buddy bot
(`src/app.py`): the code-likelihood detector embedded in `format_code`
(the `code_regex` suppression check, the `code_indicators` list and the
punctuation-density fallback) and the language classifier
`detect_language`.

All Python regular expressions are embedded as data (`RE`) and executed
by a Brzozowski-derivative matcher.  `rsearch` implements the semantics
of Python's `re.search` (does any substring match?); laziness/greediness
of quantifiers is irrelevant to the boolean result of a search, so the
non-greedy `*?` of `code_regex` is embedded as an ordinary star.
`Matches` is the declarative matching relation, proved equivalent to the
executable matcher.
-/

set_option maxHeartbeats 1000000

namespace WrapperBuddy

/-- Regular expressions over characters.  `cls f` is a character class
given by a Boolean predicate (used for `\w`, `\s`, `.`, `[\s\S]`, and
bracket classes); `chr c` is a literal character. -/
inductive RE where
  | emp : RE
  | eps : RE
  | chr : Char → RE
  | cls : (Char → Bool) → RE
  | alt : RE → RE → RE
  | cat : RE → RE → RE
  | star : RE → RE

/-- Does the regex accept the empty string? -/
def nullable : RE → Bool
  | .emp => false
  | .eps => true
  | .chr _ => false
  | .cls _ => false
  | .alt a b => nullable a || nullable b
  | .cat a b => nullable a && nullable b
  | .star _ => true

/-- Smart alternation (keeps derivatives small). -/
def ralt : RE → RE → RE
  | .emp, b => b
  | a, .emp => a
  | a, b => .alt a b

/-- Smart concatenation (keeps derivatives small). -/
def rcat : RE → RE → RE
  | .emp, _ => .emp
  | _, .emp => .emp
  | .eps, b => b
  | a, .eps => a
  | a, b => .cat a b

/-- Brzozowski derivative with respect to one character. -/
def deriv : RE → Char → RE
  | .emp, _ => .emp
  | .eps, _ => .emp
  | .chr c, x => if x = c then .eps else .emp
  | .cls f, x => if f x then .eps else .emp
  | .alt a b, x => ralt (deriv a x) (deriv b x)
  | .cat a b, x =>
    if nullable a then ralt (rcat (deriv a x) b) (deriv b x)
    else rcat (deriv a x) b
  | .star a, x => rcat (deriv a x) (.star a)

/-- Full match: does `r` match exactly `s`? -/
def mfull : RE → List Char → Bool
  | r, [] => nullable r
  | r, c :: s => mfull (deriv r c) s

/-- Prefix match: does `r` match some prefix of `s`? -/
def mpre : RE → List Char → Bool
  | r, [] => nullable r
  | r, c :: s => nullable r || mpre (deriv r c) s

/-- Search: does `r` match some substring of `s`?  This is the boolean
result of Python's `re.search`. -/
def rsearch : RE → List Char → Bool
  | r, [] => nullable r
  | r, c :: s => mpre r (c :: s) || rsearch r s

/-- Does `r` match some suffix of `s` extending to the end of `s`?
(Used to embed a trailing `\b` word boundary at end of string.) -/
def msuffix : RE → List Char → Bool
  | r, [] => nullable r
  | r, c :: s => mfull r (c :: s) || msuffix r s

/-- Declarative matching relation for `RE`. -/
inductive Matches : RE → List Char → Prop where
  | eps : Matches .eps []
  | chr (c : Char) : Matches (.chr c) [c]
  | cls (f : Char → Bool) (c : Char) : f c = true → Matches (.cls f) [c]
  | altL {a b : RE} {s : List Char} : Matches a s → Matches (.alt a b) s
  | altR {a b : RE} {s : List Char} : Matches b s → Matches (.alt a b) s
  | cat {a b : RE} {s t : List Char} :
      Matches a s → Matches b t → Matches (.cat a b) (s ++ t)
  | starNil {a : RE} : Matches (.star a) []
  | starCons {a : RE} {s t : List Char} :
      Matches a s → Matches (.star a) t → Matches (.star a) (s ++ t)

theorem matches_emp {s : List Char} : ¬ Matches .emp s := fun h => nomatch h

theorem matches_eps_iff {s : List Char} : Matches .eps s ↔ s = [] := by
  constructor
  · intro h; cases h; rfl
  · intro h; subst h; exact .eps

theorem matches_chr_iff {c : Char} {s : List Char} :
    Matches (.chr c) s ↔ s = [c] := by
  constructor
  · intro h; cases h; rfl
  · intro h; subst h; exact .chr c

theorem matches_cls_iff {f : Char → Bool} {s : List Char} :
    Matches (.cls f) s ↔ ∃ c, s = [c] ∧ f c = true := by
  constructor
  · intro h; cases h with
    | cls f c hc => exact ⟨c, rfl, hc⟩
  · rintro ⟨c, rfl, hc⟩; exact .cls f c hc

theorem matches_alt_iff {a b : RE} {s : List Char} :
    Matches (.alt a b) s ↔ Matches a s ∨ Matches b s := by
  constructor
  · intro h; cases h with
    | altL h => exact Or.inl h
    | altR h => exact Or.inr h
  · rintro (h | h)
    · exact .altL h
    · exact .altR h

theorem matches_cat_iff {a b : RE} {u : List Char} :
    Matches (.cat a b) u ↔ ∃ s t, u = s ++ t ∧ Matches a s ∧ Matches b t := by
  constructor
  · intro h; cases h with
    | cat h1 h2 => exact ⟨_, _, rfl, h1, h2⟩
  · rintro ⟨s, t, rfl, h1, h2⟩; exact .cat h1 h2

theorem matches_ralt {a b : RE} {s : List Char} :
    Matches (ralt a b) s ↔ Matches a s ∨ Matches b s := by
  cases a <;> cases b <;>
    simp [ralt, matches_alt_iff, matches_emp]

theorem exists_nil_left {P : List Char → Prop} {u : List Char} :
    (∃ s t, u = s ++ t ∧ s = [] ∧ P t) ↔ P u := by
  constructor
  · rintro ⟨s, t, rfl, rfl, h⟩; simpa using h
  · intro h; exact ⟨[], u, rfl, rfl, h⟩

theorem exists_nil_right {P : List Char → Prop} {u : List Char} :
    (∃ s t, u = s ++ t ∧ P s ∧ t = []) ↔ P u := by
  constructor
  · rintro ⟨s, t, rfl, h, rfl⟩; simpa using h
  · intro h; exact ⟨u, [], by simp, h, rfl⟩

theorem matches_rcat {a b : RE} {u : List Char} :
    Matches (rcat a b) u ↔ ∃ s t, u = s ++ t ∧ Matches a s ∧ Matches b t := by
  cases a <;> cases b <;>
    simp [rcat, matches_cat_iff, matches_emp, matches_eps_iff,
      exists_nil_left, exists_nil_right]

theorem nullable_correct : ∀ r : RE, nullable r = true ↔ Matches r [] := by
  intro r
  induction r with
  | emp => simp [nullable, matches_emp]
  | eps => simp [nullable, matches_eps_iff]
  | chr c => simp [nullable, matches_chr_iff]
  | cls f => simp [nullable, matches_cls_iff]
  | alt a b iha ihb =>
    simp [nullable, matches_alt_iff, iha, ihb]
  | cat a b iha ihb =>
    simp only [nullable, Bool.and_eq_true, matches_cat_iff, iha, ihb]
    constructor
    · rintro ⟨ha, hb⟩; exact ⟨[], [], rfl, ha, hb⟩
    · rintro ⟨s, t, h, ha, hb⟩
      rcases List.append_eq_nil.mp h.symm with ⟨rfl, rfl⟩
      exact ⟨ha, hb⟩
  | star a iha =>
    simp only [nullable, true_iff]
    exact .starNil

theorem star_inv {r : RE} {t : List Char} (h : Matches r t) :
    ∀ a, r = .star a →
      t = [] ∨ ∃ p q, t = p ++ q ∧ p ≠ [] ∧ Matches a p ∧ Matches (.star a) q := by
  induction h with
  | eps => intro a ha; simp at ha
  | chr c => intro a ha; simp at ha
  | cls f c hc => intro a ha; simp at ha
  | altL h ih => intro a ha; simp at ha
  | altR h ih => intro a ha; simp at ha
  | cat h1 h2 ih1 ih2 => intro a ha; simp at ha
  | starNil => intro a ha; exact Or.inl rfl
  | starCons h1 h2 ih1 ih2 =>
    intro a ha
    injection ha with ha'
    subst ha'
    rename_i s t'
    cases s with
    | nil =>
      simpa using ih2 _ rfl
    | cons c s' =>
      exact Or.inr ⟨c :: s', t', rfl, by simp, h1, h2⟩

theorem star_cons_inv {a : RE} {c : Char} {s : List Char}
    (h : Matches (.star a) (c :: s)) :
    ∃ p q, s = p ++ q ∧ Matches a (c :: p) ∧ Matches (.star a) q := by
  rcases star_inv h a rfl with h0 | ⟨p, q, ht, hne, hp, hq⟩
  · exact absurd h0 (List.cons_ne_nil c s)
  · cases p with
    | nil => exact absurd rfl hne
    | cons y p' =>
      obtain ⟨rfl, rfl⟩ : c = y ∧ s = p' ++ q := by simpa using ht
      exact ⟨p', q, rfl, hp, hq⟩

theorem deriv_correct :
    ∀ (r : RE) (x : Char) (s : List Char),
      Matches (deriv r x) s ↔ Matches r (x :: s) := by
  intro r
  induction r with
  | emp =>
    intro x s
    simp [deriv, matches_emp]
  | eps =>
    intro x s
    simp [deriv, matches_emp, matches_eps_iff]
  | chr c =>
    intro x s
    by_cases hx : x = c
    · simp [deriv, hx, matches_eps_iff, matches_chr_iff]
    · simp [deriv, hx, matches_emp, matches_chr_iff]
  | cls f =>
    intro x s
    by_cases hx : f x = true
    · simp only [deriv, hx, if_true, matches_eps_iff, matches_cls_iff]
      constructor
      · rintro rfl; exact ⟨x, by simp, hx⟩
      · rintro ⟨c, hc, hfc⟩
        obtain ⟨rfl, rfl⟩ : x = c ∧ s = [] := by simpa using hc
        rfl
    · simp only [deriv, hx]
      rw [if_neg (by simp [hx])]
      simp only [matches_emp, false_iff, matches_cls_iff]
      rintro ⟨c, hc, hfc⟩
      obtain ⟨rfl, rfl⟩ : x = c ∧ s = [] := by simpa using hc
      exact hx hfc
  | alt a b iha ihb =>
    intro x s
    simp [deriv, matches_ralt, matches_alt_iff, iha, ihb]
  | cat a b iha ihb =>
    intro x s
    constructor
    · intro h
      unfold deriv at h
      by_cases hn : nullable a = true
      · rw [if_pos hn] at h
        rcases matches_ralt.mp h with h1 | h2
        · rcases matches_rcat.mp h1 with ⟨p, q, rfl, hp, hq⟩
          exact matches_cat_iff.mpr ⟨x :: p, q, rfl, (iha x p).mp hp, hq⟩
        · have hb := (ihb x s).mp h2
          have ha := (nullable_correct a).mp hn
          exact matches_cat_iff.mpr ⟨[], x :: s, rfl, ha, hb⟩
      · rw [if_neg hn] at h
        rcases matches_rcat.mp h with ⟨p, q, rfl, hp, hq⟩
        exact matches_cat_iff.mpr ⟨x :: p, q, rfl, (iha x p).mp hp, hq⟩
    · intro h
      rcases matches_cat_iff.mp h with ⟨p, q, hpq, hp, hq⟩
      unfold deriv
      cases p with
      | nil =>
        have hn : nullable a = true := (nullable_correct a).mpr hp
        rw [if_pos hn]
        apply matches_ralt.mpr
        right
        apply (ihb x s).mpr
        obtain rfl : q = x :: s := by simpa using hpq.symm
        exact hq
      | cons y p' =>
        obtain ⟨rfl, rfl⟩ : x = y ∧ s = p' ++ q := by simpa using hpq
        have hp' := (iha x p').mpr hp
        by_cases hn : nullable a = true
        · rw [if_pos hn]
          exact matches_ralt.mpr (Or.inl (matches_rcat.mpr ⟨p', q, rfl, hp', hq⟩))
        · rw [if_neg hn]
          exact matches_rcat.mpr ⟨p', q, rfl, hp', hq⟩
  | star a iha =>
    intro x s
    constructor
    · intro h
      unfold deriv at h
      rcases matches_rcat.mp h with ⟨p, q, rfl, hp, hq⟩
      exact Matches.starCons ((iha x p).mp hp) hq
    · intro h
      rcases star_cons_inv h with ⟨p, q, rfl, hp, hq⟩
      unfold deriv
      exact matches_rcat.mpr ⟨p, q, rfl, (iha x p).mpr hp, hq⟩

theorem mfull_correct :
    ∀ (s : List Char) (r : RE), mfull r s = true ↔ Matches r s := by
  intro s
  induction s with
  | nil => intro r; exact nullable_correct r
  | cons c s ih =>
    intro r
    rw [show mfull r (c :: s) = mfull (deriv r c) s from rfl, ih]
    exact deriv_correct r c s

theorem mpre_correct :
    ∀ (s : List Char) (r : RE),
      mpre r s = true ↔ ∃ p q, s = p ++ q ∧ Matches r p := by
  intro s
  induction s with
  | nil =>
    intro r
    simp only [mpre]
    rw [nullable_correct]
    constructor
    · intro h; exact ⟨[], [], rfl, h⟩
    · rintro ⟨p, q, h, hp⟩
      rcases List.append_eq_nil.mp h.symm with ⟨rfl, rfl⟩
      exact hp
  | cons c s ih =>
    intro r
    simp only [mpre, Bool.or_eq_true]
    rw [nullable_correct, ih]
    constructor
    · rintro (h | ⟨p, q, rfl, hp⟩)
      · exact ⟨[], c :: s, rfl, h⟩
      · exact ⟨c :: p, q, rfl, (deriv_correct r c p).mp hp⟩
    · rintro ⟨p, q, hpq, hp⟩
      cases p with
      | nil =>
        left
        obtain rfl : q = c :: s := by simpa using hpq.symm
        exact hp
      | cons y p' =>
        right
        obtain ⟨rfl, rfl⟩ : c = y ∧ s = p' ++ q := by simpa using hpq
        exact ⟨p', q, rfl, (deriv_correct r c p').mpr hp⟩

theorem rsearch_correct :
    ∀ (s : List Char) (r : RE),
      rsearch r s = true ↔ ∃ u p v, s = u ++ p ++ v ∧ Matches r p := by
  intro s
  induction s with
  | nil =>
    intro r
    simp only [rsearch]
    rw [nullable_correct]
    constructor
    · intro h; exact ⟨[], [], [], rfl, h⟩
    · rintro ⟨u, p, v, h, hp⟩
      rcases List.append_eq_nil.mp h.symm with ⟨h1, rfl⟩
      rcases List.append_eq_nil.mp h1 with ⟨rfl, rfl⟩
      exact hp
  | cons c s ih =>
    intro r
    simp only [rsearch, Bool.or_eq_true]
    rw [mpre_correct, ih]
    constructor
    · rintro (⟨p, q, hpq, hp⟩ | ⟨u, p, v, rfl, hp⟩)
      · exact ⟨[], p, q, by simpa using hpq, hp⟩
      · exact ⟨c :: u, p, v, rfl, hp⟩
    · rintro ⟨u, p, v, hpq, hp⟩
      cases u with
      | nil =>
        left
        refine ⟨p, v, ?_, hp⟩
        simpa using hpq
      | cons y u' =>
        right
        obtain ⟨rfl, rfl⟩ : c = y ∧ s = u' ++ p ++ v := by simpa using hpq
        exact ⟨u', p, v, rfl, hp⟩

/-! Character classes of the Python patterns

`wordChar` embeds `\w`, `spaceChar` embeds `\s` (the ASCII whitespace
characters), `dotC` embeds `.` (anything but a newline), `anyC` embeds
`[\s\S]`.  The source operates on chat messages, which are treated here
as ASCII-classified character lists. -/

def wordChar (c : Char) : Bool := c.isAlphanum || c = '_'

def spaceChar (c : Char) : Bool :=
  c = ' ' || c = '\t' || c = '\n' || c = '\r' || c = '\x0b' || c = '\x0c'

def dotC (c : Char) : Bool := decide (c ≠ '\n')

def anyC (_ : Char) : Bool := true

/-! Pattern builders -/

/-- Concatenation of a list of regexes (left to right). -/
def cats : List RE → RE
  | [] => .eps
  | r :: rs => .cat r (cats rs)

/-- Alternation of a list of regexes (left to right). -/
def alts : List RE → RE
  | [] => .emp
  | r :: rs => .alt r (alts rs)

/-- A literal string of characters. -/
def lit : List Char → RE
  | [] => .eps
  | c :: cs => .cat (.chr c) (lit cs)

def lits (s : String) : RE := lit s.data

/-- A case-insensitive literal (embeds `re.IGNORECASE` for a lower-case
pattern literal): each position accepts any character whose lower-case
form is the pattern character. -/
def litCI : List Char → RE
  | [] => .eps
  | c :: cs => .cat (.cls (fun x => x.toLower = c)) (litCI cs)

def litsCI (s : String) : RE := litCI s.data

/-- One-or-more repetition, `X+`. -/
def rplus (r : RE) : RE := .cat r (.star r)

/-- The regex `\s+`. -/
def wsp : RE := rplus (.cls spaceChar)

/-- The regex `\s*`. -/
def wss : RE := .star (.cls spaceChar)

/-- The regex `\w+`. -/
def wplus : RE := rplus (.cls wordChar)

/-- The regex `.*`. -/
def dotStar : RE := .star (.cls dotC)

/-- The regex `.+`. -/
def dotPlus : RE := rplus (.cls dotC)

/-! `code_regex` (src/app.py line 23)

`r"```[\w]*\n[\s\S]*?\n```|`[\s\S]*?`"` — an already-formatted fenced
block or inline backtick span. -/

/-- First alternative of `code_regex`: a fenced block. -/
def fencedRE : RE :=
  cats [.chr '`', .chr '`', .chr '`', .star (.cls wordChar), .chr '\n',
    .star (.cls anyC), .chr '\n', .chr '`', .chr '`', .chr '`']

/-- Second alternative of `code_regex`: an inline backtick span. -/
def inlineRE : RE :=
  cats [.chr '`', .star (.cls anyC), .chr '`']

def codeRegex : RE := .alt fencedRE inlineRE

/-! `detect_language` patterns (src/app.py lines 28–79) -/

def pyDef : RE := cats [lits "def", wsp, wplus, wss, .chr '(', dotStar, .chr ')', .chr ':']

def pyImport : RE := cats [lits "import", wsp, rplus (.cls (fun c => wordChar c || c = '.'))]

def pyFrom : RE :=
  cats [lits "from", wsp, rplus (.cls (fun c => wordChar c || c = '.')), wsp, lits "import"]

def pyPrint : RE := cats [lits "print", wss, .chr '(']

def jsFunc : RE := cats [lits "function", wsp, wplus, wss, .chr '(', dotStar, .chr ')']

def jsConst : RE := cats [lits "const", wsp, wplus, wss, .chr '=']

def jsLet : RE := cats [lits "let", wsp, wplus, wss, .chr '=']

def jsVar : RE := cats [lits "var", wsp, wplus, wss, .chr '=']

def jsArrow : RE := cats [lits "=>", wss, .chr '{']

def jsDoc : RE := lits "document."

def jsConsole : RE := lits "console.log"

def tsInterface : RE := cats [lits "interface", wsp, wplus, wss, .chr '{']

def tsAnno : RE :=
  cats [.chr ':', wss, alts [lits "string", lits "number", lits "boolean", lits "any"],
    wss, .cls (fun c => c = ',' || c = '=' || c = ')')]

/-- The HTML pattern `<(!DOCTYPE|html|head|body|div|span|p|a|img)`
without its trailing `\b`. -/
def htmlCore : RE :=
  .cat (.chr '<')
    (alts [lits "!DOCTYPE", lits "html", lits "head", lits "body", lits "div",
      lits "span", lits "p", lits "a", lits "img"])

def cssSel : RE :=
  cats [.cls (fun c => c = '.' || c = '#'), rplus (.cls (fun c => wordChar c || c = '-')),
    wss, .chr '{']

def cssProp : RE :=
  cats [alts [lits "margin", lits "padding", lits "color", lits "background", lits "font"],
    .chr ':']

def cfam1 : RE :=
  cats [alts [lits "public", lits "private", lits "protected"], wsp, wplus, wsp, wplus,
    wss, .chr '(']

def cfam2 : RE :=
  cats [lits "class", wsp, wplus, wss, alts [lits "extends", lits "implements", lits ":"]]

def cfam3 : RE :=
  cats [alts [litsCI "int", litsCI "float", litsCI "double", litsCI "char",
    litsCI "boolean", litsCI "string"], wsp, wplus, wss, .chr '=']

def javaPrintln : RE := lits "System.out.println"

def javaMain : RE := cats [lits "public", wsp, lits "static", wsp, lits "void", wsp, lits "main"]

def csWriteLine : RE := lits "Console.WriteLine"

def csNamespace : RE := cats [lits "namespace", wsp, wplus]

def cppInclude : RE := lits "#include"

def cppStd : RE := lits "std::"

def cppArrow : RE := cats [lits "->", wplus]

/-! Branch conditions of `detect_language` -/

def pythonHit (s : List Char) : Bool :=
  rsearch pyDef s || rsearch pyImport s || rsearch pyFrom s || rsearch pyPrint s

def jsHit (s : List Char) : Bool :=
  rsearch jsFunc s || rsearch jsConst s || rsearch jsLet s || rsearch jsVar s ||
    rsearch jsArrow s || rsearch jsDoc s || rsearch jsConsole s

def tsHit (s : List Char) : Bool :=
  rsearch tsInterface s || rsearch tsAnno s

/-- The trailing `\b` of the HTML pattern sits after an alternation
whose every branch ends in a word character, so it holds exactly when
the next character is a non-word character or the match ends at the end
of the string. -/
def htmlHit (s : List Char) : Bool :=
  rsearch (.cat htmlCore (.cls (fun c => !(wordChar c)))) s || msuffix htmlCore s

def cssHit (s : List Char) : Bool :=
  rsearch cssSel s || rsearch cssProp s

def cfamHit (s : List Char) : Bool :=
  rsearch cfam1 s || rsearch cfam2 s || rsearch cfam3 s

def javaHit (s : List Char) : Bool :=
  rsearch javaPrintln s || rsearch javaMain s

def csHit (s : List Char) : Bool :=
  rsearch csWriteLine s || rsearch csNamespace s

def cppHit (s : List Char) : Bool :=
  rsearch cppInclude s || rsearch cppStd s || rsearch cppArrow s

/-- The function `detect_language` (src/app.py lines 28–79): ordered first-match-wins
rule list, returning `""` when no rule matches. -/
def detect_language (code : List Char) : String :=
  if pythonHit code then "python"
  else if jsHit code then
    if tsHit code then "typescript" else "javascript"
  else if htmlHit code then "html"
  else if cssHit code then "css"
  else if cfamHit code then
    if javaHit code then "java"
    else if csHit code then "csharp"
    else if cppHit code then "cpp"
    else ""
  else ""

/-- The spec-level `classify` is `detect_language` on the message text. -/
def classify (s : String) : String := detect_language s.data

/-! Code-likelihood detection (`format_code`, src/app.py lines 81–145) -/

/-- The 21 `code_indicators` patterns of `format_code`, in source order. -/
def indClassColon : RE := cats [lits "class", wsp, wplus, .cls (fun c => c = ':' || c = '(')]

def indImport : RE := cats [lits "import", wsp, wplus]

def indFrom : RE := cats [lits "from", wsp, wplus, wsp, lits "import"]

def indClassBrace : RE := cats [lits "class", wsp, wplus, wss, .chr '{']

def indPub : RE := cats [lits "public", wsp, wplus, wsp, wplus, wss, .chr '(', dotStar, .chr ')']

def indPriv : RE := cats [lits "private", wsp, wplus, wsp, wplus, wss, .chr '(', dotStar, .chr ')']

def indProt : RE := cats [lits "protected", wsp, wplus, wsp, wplus, wss, .chr '(', dotStar, .chr ')']

def indFor : RE := cats [lits "for", wss, .chr '(', dotPlus, .chr ')']

def indIf : RE := cats [lits "if", wss, .chr '(', dotPlus, .chr ')']

def indWhile : RE := cats [lits "while", wss, .chr '(', dotPlus, .chr ')']

def indSwitch : RE := cats [lits "switch", wss, .chr '(', dotPlus, .chr ')']

def indCase : RE := cats [lits "case", wsp, dotPlus, .chr ':']

def indElse : RE := cats [.chr '}', wss, lits "else", wss, .chr '{']

/-- The indicator `r"\n\s{2,}.*\n\s{2,}"`. -/
def indIndent : RE :=
  cats [.chr '\n', .cls spaceChar, .cls spaceChar, .star (.cls spaceChar), dotStar,
    .chr '\n', .cls spaceChar, .cls spaceChar, .star (.cls spaceChar)]

/-- The indicator `r"\n\t+.*\n\t+"`. -/
def indTab : RE :=
  cats [.chr '\n', rplus (.chr '\t'), dotStar, .chr '\n', rplus (.chr '\t')]

def codeIndicators : List RE :=
  [pyDef, indClassColon, indImport, indFrom,
   jsFunc, jsConst, jsLet, jsVar, jsArrow, indClassBrace,
   indPub, indPriv, indProt,
   indFor, indIf, indWhile, indSwitch, indCase, indElse,
   indIndent, indTab]

/-- Python semantics of `content.split("\n")` (the empty string splits
to `[""]`). -/
def splitNl : List Char → List (List Char)
  | [] => [[]]
  | c :: cs =>
    if c = '\n' then [] :: splitNl cs
    else
      match splitNl cs with
      | [] => [[c]]
      | l :: ls => (c :: l) :: ls

/-- Membership in the source's `code_chars` set: braces, brackets,
parentheses, the arithmetic and comparison operators, `!&|;:` and the
dot. -/
def codeChar (c : Char) : Bool :=
  "\x7b\x7d[]()+*/-=%<>!&|;:.".data.contains c

/-- Number of lines containing at least one character from the fixed
punctuation set. -/
def codeLineCount (content : List Char) : Nat :=
  ((splitNl content).filter (fun line => line.any codeChar)).length

/-- The code-likelihood decision embedded in `format_code`
(src/app.py lines 86–133): a message is reformatted iff this is true.
The `message.author == bot.user` test is host-side suppression outside
the classification core. -/
def likelyCode (content : List Char) : Bool :=
  if rsearch codeRegex content then false
  else if codeIndicators.any (fun p => rsearch p content) then true
  else if content.contains '\n' then decide (2 < codeLineCount content)
  else false

/-- The spec-level `isLikelyCode` on the message text. -/
def isLikelyCode (s : String) : Bool := likelyCode s.data

/-! Sanity checks: the spec scenarios that the code does satisfy -/

/-- Spec scenario: a Python function definition classifies as python. -/
theorem scenario_python : classify "def foo():\n    return 1" = "python" := by decide

/-- Spec scenario: an arrow function with console logging classifies as
javascript. -/
theorem scenario_javascript :
    classify "const x = () => \x7b console.log(x); \x7d" = "javascript" := by decide

/-- Spec scenario: plain prose with one newline is not code-like. -/
theorem scenario_prose : isLikelyCode "hello\nhow are you" = false := by decide

/-! Claims C2–C4: the classifier scenarios -/

/-- C2 counterexample: on `"interface Foo { bar: string }"` the
classifier does not return `"typescript"`: no top-level pattern of the
javascript branch matches, so the interface refinement is never
consulted. -/
theorem C2_counterexample :
    classify "interface Foo \x7b bar: string \x7d" ≠ "typescript" := by decide

/-- C2 (amended): `classify "interface Foo { bar: string }"` returns
the unknown sentinel `""`; the interface pattern is only checked inside
the javascript branch, whose top-level condition does not match this
text. -/
theorem C2_interface_unknown :
    classify "interface Foo \x7b bar: string \x7d" = "" := by decide

/-- C3 counterexample: on the java `main` scenario text the classifier
does not return `"java"`: the member-signature pattern
`(public|private|protected)\s+\w+\s+\w+\s*\(` expects exactly two words
after the visibility keyword, but `public static void main(` has three,
and no other top-level pattern matches. -/
theorem C3_counterexample :
    classify "public static void main(String[] args) \x7b System.out.println(1); \x7d" ≠ "java" := by
  decide

/-- C3 (amended): the java scenario text classifies as the unknown
sentinel `""`; the `System.out.println` and `public static void main`
refinements are unreachable because the branch's top-level condition
fails. -/
theorem C3_main_unknown :
    classify "public static void main(String[] args) \x7b System.out.println(1); \x7d" = "" := by
  decide

/-- C4 counterexample: on `"#include <iostream>\nstd::cout << 1;"` the
classifier does not return `"cpp"`: the java/csharp/cpp branch's
top-level condition does not match this text, so the `#include` and
`std::` refinements are never consulted. -/
theorem C4_counterexample :
    classify "#include <iostream>\nstd::cout << 1;" ≠ "cpp" := by decide

/-- C4 (amended): the cpp scenario text classifies as the unknown
sentinel `""`. -/
theorem C4_include_unknown :
    classify "#include <iostream>\nstd::cout << 1;" = "" := by decide

/-! Claim C7: totality and empty-string defaults -/

/-- C7 counterexample: `classify ""` is not the literal string
`"unknown"`; the code's unknown sentinel is the empty string. -/
theorem C7_counterexample : classify "" ≠ "unknown" := by decide

/-- C7 (amended): both functions are total Lean functions (they cannot
raise), and on the empty string they return their defined defaults:
`isLikelyCode "" = false` and `classify ""` is the unknown sentinel
`""`. -/
theorem C7_empty_defaults : isLikelyCode "" = false ∧ classify "" = "" := by decide

/-! Claim C10: the range of classifier labels -/

/-- C10: every classification result is one of the eight language
labels or the empty-string unknown sentinel, and the literal string
`"unknown"` is never returned. -/
theorem C10_label_range (s : String) :
    (classify s = "python" ∨ classify s = "javascript" ∨ classify s = "typescript" ∨
      classify s = "html" ∨ classify s = "css" ∨ classify s = "java" ∨
      classify s = "csharp" ∨ classify s = "cpp" ∨ classify s = "") ∧
    classify s ≠ "unknown" := by
  unfold classify detect_language
  split_ifs <;> exact ⟨by decide, by decide⟩

/-! Claim C6: first-match-wins evaluation order -/

/-- C6: the rule branches are evaluated in the fixed order python,
javascript/typescript, html, css, java/csharp/cpp, and the first branch
whose top-level condition matches determines the label, with
refinements inside a matched branch also first-match-wins. -/
theorem C6_first_match_order (s : String) :
    (pythonHit s.data = true → classify s = "python") ∧
    (pythonHit s.data = false → jsHit s.data = true → tsHit s.data = true →
      classify s = "typescript") ∧
    (pythonHit s.data = false → jsHit s.data = true → tsHit s.data = false →
      classify s = "javascript") ∧
    (pythonHit s.data = false → jsHit s.data = false → htmlHit s.data = true →
      classify s = "html") ∧
    (pythonHit s.data = false → jsHit s.data = false → htmlHit s.data = false →
      cssHit s.data = true → classify s = "css") ∧
    (pythonHit s.data = false → jsHit s.data = false → htmlHit s.data = false →
      cssHit s.data = false → cfamHit s.data = true → javaHit s.data = true →
      classify s = "java") ∧
    (pythonHit s.data = false → jsHit s.data = false → htmlHit s.data = false →
      cssHit s.data = false → cfamHit s.data = true → javaHit s.data = false →
      csHit s.data = true → classify s = "csharp") ∧
    (pythonHit s.data = false → jsHit s.data = false → htmlHit s.data = false →
      cssHit s.data = false → cfamHit s.data = true → javaHit s.data = false →
      csHit s.data = false → cppHit s.data = true → classify s = "cpp") := by
  unfold classify detect_language
  refine ⟨fun h1 => ?_, fun h1 h2 h3 => ?_, fun h1 h2 h3 => ?_, fun h1 h2 h3 => ?_,
    fun h1 h2 h3 h4 => ?_, fun h1 h2 h3 h4 h5 h6 => ?_,
    fun h1 h2 h3 h4 h5 h6 h7 => ?_, fun h1 h2 h3 h4 h5 h6 h7 h8 => ?_⟩ <;>
  simp [*]

/-- C6 witness: a python-branch text is labelled python, and a text
whose first matching branch is java/csharp/cpp with the csharp
refinement is labelled csharp. -/
theorem C6_witness :
    (pythonHit ("import os".data) = true ∧ classify "import os" = "python") ∧
    (cfamHit ("Int x = 1;\nnamespace Foo".data) = true ∧
      classify "Int x = 1;\nnamespace Foo" = "csharp") :=
  ⟨⟨by decide, (C6_first_match_order "import os").1 (by decide)⟩,
   ⟨by decide,
    (C6_first_match_order "Int x = 1;\nnamespace Foo").2.2.2.2.2.2.1
      (by decide) (by decide) (by decide) (by decide) (by decide) (by decide) (by decide)⟩⟩

/-! Claim C5: the density fallback -/

/-- C5 counterexample: a text with a newline that matches no structural
indicator and has more than 2 punctuation-bearing lines, yet
`isLikelyCode` returns false, because the text contains an inline
backtick span and the already-formatted suppression fires first. -/
theorem C5_counterexample :
    ("`;`\n;;\n;;\n;;".data.contains '\n' = true) ∧
    (codeIndicators.any (fun p => rsearch p "`;`\n;;\n;;\n;;".data) = false) ∧
    (2 < codeLineCount "`;`\n;;\n;;\n;;".data) ∧
    isLikelyCode "`;`\n;;\n;;\n;;" = false := by decide

/-- C5 (amended): for every text that the already-formatted check does
not suppress, that contains at least one newline and matches no
structural indicator, `isLikelyCode` returns true iff strictly more
than 2 of its lines contain a character from the punctuation set. -/
theorem C5_density_fallback (s : String)
    (hcr : rsearch codeRegex s.data = false)
    (hind : codeIndicators.any (fun p => rsearch p s.data) = false)
    (hnl : s.data.contains '\n' = true) :
    isLikelyCode s = true ↔ 2 < codeLineCount s.data := by
  have hm : '\n' ∈ s.data := by simpa using hnl
  unfold isLikelyCode likelyCode
  simp [hcr, hind, hnl, hm]

/-- C5 witness: a 3-line snippet with qualifying punctuation on all 3
lines is judged code-like by the density fallback. -/
theorem C5_witness : isLikelyCode ";;\n;;\n;;" = true :=
  (C5_density_fallback ";;\n;;\n;;" (by decide) (by decide) (by decide)).mpr (by decide)

/-! Claim C8: no density fallback on single-line text -/

/-- C8: a text with no newline that matches no structural indicator is
never judged code-like: the density fallback requires a newline, and
both remaining paths return false. -/
theorem C8_single_line (s : String)
    (hnl : s.data.contains '\n' = false)
    (hind : codeIndicators.any (fun p => rsearch p s.data) = false) :
    isLikelyCode s = false := by
  have hm : ¬ ('\n' ∈ s.data) := by simpa using hnl
  unfold isLikelyCode likelyCode
  cases h : rsearch codeRegex s.data <;> simp [h, hind, hnl, hm]

/-- C8 witness: single-line prose is not code-like. -/
theorem C8_witness :
    ("hello".data.contains '\n' = false) ∧ isLikelyCode "hello" = false :=
  ⟨by decide, C8_single_line "hello" (by decide) (by decide)⟩

/-! Claim C1: already-formatted text is never reformatted -/

/-- The text contains an inline single-backtick span: a backtick,
arbitrary content, and a later backtick. -/
def ContainsInlineSpan (s : List Char) : Prop :=
  ∃ u m v, s = u ++ '`' :: (m ++ '`' :: v)

/-- The text contains a well-formed fenced code block: three backticks,
an optional word-character language tag, a newline, arbitrary content,
and a newline followed by three closing backticks. -/
def ContainsFencedBlock (s : List Char) : Prop :=
  ∃ u tag mid v, (∀c ∈ tag, wordChar c = true) ∧
    s = u ++ '`' :: '`' :: '`' :: (tag ++ '\n' :: (mid ++ '\n' :: '`' :: '`' :: '`' :: v))

theorem star_cls_all {f : Char → Bool} :
    ∀ {l : List Char}, (∀ c ∈ l, f c = true) → Matches (.star (.cls f)) l := by
  intro l
  induction l with
  | nil => intro _; exact .starNil
  | cons c l ih =>
    intro h
    have h1 : Matches (.cls f) [c] := .cls f c (h c (by simp))
    exact h1.starCons (ih fun d hd => h d (by simp [hd]))

theorem inline_matches (m : List Char) : Matches inlineRE ('`' :: (m ++ ['`'])) := by
  show Matches (.cat (.chr '`') (.cat (.star (.cls anyC)) (.cat (.chr '`') .eps))) _
  have h3 : Matches (.cat (.chr '`') RE.eps) ['`'] := Matches.cat (Matches.chr '`') Matches.eps
  have h2 : Matches (.cat (.star (.cls anyC)) (.cat (.chr '`') .eps)) (m ++ ['`']) :=
    Matches.cat (star_cls_all fun _ _ => rfl) h3
  exact Matches.cat (Matches.chr '`') h2

theorem fenced_contains_inline {s : List Char} (h : ContainsFencedBlock s) :
    ContainsInlineSpan s := by
  rcases h with ⟨u, tag, mid, v, _, rfl⟩
  exact ⟨u, [], '`' :: (tag ++ '\n' :: (mid ++ '\n' :: '`' :: '`' :: '`' :: v)), rfl⟩

theorem inline_search {s : List Char} (h : ContainsInlineSpan s) :
    rsearch codeRegex s = true := by
  rcases h with ⟨u, m, v, rfl⟩
  apply (rsearch_correct _ _).mpr
  refine ⟨u, '`' :: (m ++ ['`']), v, ?_, Matches.altR (inline_matches m)⟩
  simp

/-- C1: for every text containing a well-formed fenced code block or an
inline single-backtick span, `isLikelyCode` returns false: the
already-formatted suppression check fires before any structural
indicator or density test is consulted. -/
theorem C1_formatted_suppressed (s : String)
    (h : ContainsFencedBlock s.data ∨ ContainsInlineSpan s.data) :
    isLikelyCode s = false := by
  have hin : ContainsInlineSpan s.data := h.elim fenced_contains_inline id
  have hs := inline_search hin
  unfold isLikelyCode likelyCode
  simp [hs]

/-- C1 witness: a text with an inline span and a text with a fenced
block, both with structurally code-like content around or inside, are
not reformatted. -/
theorem C1_witness :
    (ContainsInlineSpan ("`x`".data) ∧ isLikelyCode "`x`" = false) ∧
    (ContainsFencedBlock ("```py\nx=1;\ny=2;\nz=3;\n```".data) ∧
      isLikelyCode "```py\nx=1;\ny=2;\nz=3;\n```" = false) :=
  have h1 : ContainsInlineSpan ("`x`".data) := ⟨[], ['x'], [], by decide⟩
  have h2 : ContainsFencedBlock ("```py\nx=1;\ny=2;\nz=3;\n```".data) :=
    ⟨[], ['p', 'y'], ['x', '=', '1', ';', '\n', 'y', '=', '2', ';', '\n', 'z', '=', '3', ';'],
      [], by decide, by decide⟩
  ⟨⟨h1, C1_formatted_suppressed _ (Or.inr h1)⟩,
   ⟨h2, C1_formatted_suppressed _ (Or.inl h2)⟩⟩

/-! Claim C9: pure-indentation structural indicators -/

/-- Number of backticks in the text.  A text with at most one backtick
contains no backtick span of either form. -/
def btCount : List Char → Nat
  | [] => 0
  | c :: s => (if c = '`' then 1 else 0) + btCount s

theorem btCount_append (u v : List Char) :
    btCount (u ++ v) = btCount u + btCount v := by
  induction u with
  | nil => simp [btCount]
  | cons c u ih => simp [btCount, ih, Nat.add_assoc]

/-- Every match of `code_regex` contains at least two backticks. -/
theorem matches_two_bt {p : List Char} (h : Matches codeRegex p) : 2 ≤ btCount p := by
  have h' : Matches (.alt fencedRE inlineRE) p := h
  rcases matches_alt_iff.mp h' with hf | hi
  · simp only [fencedRE, cats] at hf
    rcases matches_cat_iff.mp hf with ⟨p1, rest, rfl, h1, hrest⟩
    rw [matches_chr_iff] at h1; subst h1
    rcases matches_cat_iff.mp hrest with ⟨p2, rest2, rfl, h2, _⟩
    rw [matches_chr_iff] at h2; subst h2
    simp [btCount_append, btCount]
    omega
  · simp only [inlineRE, cats] at hi
    rcases matches_cat_iff.mp hi with ⟨p1, rest, rfl, h1, hrest⟩
    rw [matches_chr_iff] at h1; subst h1
    rcases matches_cat_iff.mp hrest with ⟨p2, rest2, rfl, _, h3⟩
    rcases matches_cat_iff.mp h3 with ⟨p3, p4, rfl, h4, _⟩
    rw [matches_chr_iff] at h4; subst h4
    simp [btCount_append, btCount]
    omega

/-- A text with at most one backtick is not suppressed by `code_regex`. -/
theorem no_pair_search {s : List Char} (h : btCount s ≤ 1) :
    rsearch codeRegex s = false := by
  cases hr : rsearch codeRegex s with
  | false => rfl
  | true =>
    exfalso
    rcases (rsearch_correct s codeRegex).mp hr with ⟨u, p, v, hs, hm⟩
    have h2 := matches_two_bt hm
    rw [hs, btCount_append, btCount_append] at h
    omega

/-- Two consecutive newline-started lines, each beginning with at least
two (non-newline) whitespace characters; the remainder of the first
line contains no newline. -/
def TwoIndentedLines (s : List Char) : Prop :=
  ∃ u a b r1 c d v, s = u ++ '\n' :: a :: b :: (r1 ++ '\n' :: c :: d :: v) ∧
    spaceChar a = true ∧ spaceChar b = true ∧ spaceChar c = true ∧ spaceChar d = true ∧
    a ≠ '\n' ∧ b ≠ '\n' ∧ c ≠ '\n' ∧ d ≠ '\n' ∧ (∀ x ∈ r1, x ≠ '\n')

/-- Two consecutive newline-started lines, each beginning with at least
one tab. -/
def TwoTabLines (s : List Char) : Prop :=
  ∃ u r1 v, s = u ++ '\n' :: '\t' :: (r1 ++ '\n' :: '\t' :: v) ∧ (∀ x ∈ r1, x ≠ '\n')

theorem dot_of_ne {r1 : List Char} (hr : ∀ x ∈ r1, x ≠ '\n') :
    ∀ x ∈ r1, dotC x = true := by
  intro x hx
  simp only [dotC, decide_eq_true_eq]
  exact hr x hx

theorem indent_matches {a b c d : Char} {r1 : List Char}
    (ha : spaceChar a = true) (hb : spaceChar b = true)
    (hc : spaceChar c = true) (hd : spaceChar d = true)
    (hr : ∀ x ∈ r1, x ≠ '\n') :
    Matches indIndent ('\n' :: a :: b :: (r1 ++ ['\n', c, d])) := by
  show Matches (.cat (.chr '\n') (.cat (.cls spaceChar) (.cat (.cls spaceChar)
    (.cat (.star (.cls spaceChar)) (.cat (.star (.cls dotC)) (.cat (.chr '\n')
    (.cat (.cls spaceChar) (.cat (.cls spaceChar)
      (.cat (.star (.cls spaceChar)) .eps))))))))) _
  have h9 : Matches (.cat (.star (.cls spaceChar)) RE.eps) [] :=
    Matches.cat Matches.starNil Matches.eps
  have h8 := Matches.cat (Matches.cls _ d hd) h9
  have h7 := Matches.cat (Matches.cls _ c hc) h8
  have h6 := Matches.cat (Matches.chr '\n') h7
  have h5 := Matches.cat (star_cls_all (dot_of_ne hr)) h6
  have h4 := Matches.cat (Matches.starNil (a := .cls spaceChar)) h5
  have h3 := Matches.cat (Matches.cls _ b hb) h4
  have h2 := Matches.cat (Matches.cls _ a ha) h3
  exact Matches.cat (Matches.chr '\n') h2

theorem tab_matches {r1 : List Char} (hr : ∀ x ∈ r1, x ≠ '\n') :
    Matches indTab ('\n' :: '\t' :: (r1 ++ ['\n', '\t'])) := by
  show Matches (.cat (.chr '\n') (.cat (.cat (.chr '\t') (.star (.chr '\t')))
    (.cat (.star (.cls dotC)) (.cat (.chr '\n')
      (.cat (.cat (.chr '\t') (.star (.chr '\t'))) .eps))))) _
  have h6 : Matches (.cat (.cat (.chr '\t') (.star (.chr '\t'))) RE.eps) ['\t'] :=
    Matches.cat (Matches.cat (Matches.chr '\t') Matches.starNil) Matches.eps
  have h5 := Matches.cat (Matches.chr '\n') h6
  have h4 := Matches.cat (star_cls_all (dot_of_ne hr)) h5
  have h3 := Matches.cat
    (Matches.cat (Matches.chr '\t') (Matches.starNil (a := .chr '\t'))) h4
  exact Matches.cat (Matches.chr '\n') h3

/-- C9: a text with no backtick span that contains two consecutive
newline-started lines each beginning with at least two whitespace
characters (or each with at least one tab) is judged code-like by the
pure-indentation structural indicators, regardless of keywords or
punctuation. -/
theorem C9_indentation_flags (s : String)
    (hbt : btCount s.data ≤ 1)
    (h : TwoIndentedLines s.data ∨ TwoTabLines s.data) :
    isLikelyCode s = true := by
  have hind : codeIndicators.any (fun p => rsearch p s.data) = true := by
    rcases h with ⟨u, a, b, r1, c, d, v, heq, ha, hb, hc, hd, _, _, _, _, hr⟩ |
      ⟨u, r1, v, heq, hr⟩
    · rw [heq]
      apply List.any_eq_true.mpr
      refine ⟨indIndent, by simp [codeIndicators], ?_⟩
      apply (rsearch_correct _ _).mpr
      exact ⟨u, '\n' :: a :: b :: (r1 ++ ['\n', c, d]), v, by simp,
        indent_matches ha hb hc hd hr⟩
    · rw [heq]
      apply List.any_eq_true.mpr
      refine ⟨indTab, by simp [codeIndicators], ?_⟩
      apply (rsearch_correct _ _).mpr
      exact ⟨u, '\n' :: '\t' :: (r1 ++ ['\n', '\t']), v, by simp, tab_matches hr⟩
  have hcr := no_pair_search hbt
  unfold isLikelyCode likelyCode
  simp [hcr, hind]

/-- C9 witness: a keyword-free, punctuation-free text whose second and
third lines are indented by two spaces is flagged as code. -/
theorem C9_witness :
    (btCount ("a\n  b\n  c".data) ≤ 1) ∧ isLikelyCode "a\n  b\n  c" = true :=
  ⟨by decide, C9_indentation_flags _ (by decide)
    (Or.inl ⟨['a'], ' ', ' ', ['b'], ' ', ' ', ['c'], by decide, by decide, by decide,
      by decide, by decide, by decide, by decide, by decide, by decide, by decide⟩)⟩

end WrapperBuddy
